import Mathlib

/-!
Verification of the combinatorial parsing engine in `parsing.py`.

The engine is embedded shallowly over character-list input:

* `Value` models the parse results that flow through the engine: the
  identity object `Nil`, strings, Python lists (as produced by `sep_by`),
  and `Match` records produced by `Input.match`.
* `join` models Python `a + b` on those results (including the
  `__add__`/`__radd__` resolution order); `none` models a `TypeError`.
* `Input` models the cursor class of the same name: `value` is the
  remaining input, `consumed` the committed prefix.  The checkpoint stack
  is represented by the functional style itself: `begin`/`rollback` pairs
  become saved local states, which is equivalent because every combinator
  in the source pushes and pops its own checkpoints in a balanced way.
* `P` is the combinator grammar; `parse` is a fuel-indexed interpreter,
  one clause per `parse` method of the source.  `Res.timeout` is the
  fuel-exhaustion artifact for the source's unbounded `while` loops;
  `Res.fatal` models a non-`ParserError` exception (a `TypeError` raised
  by an incompatible join) unwinding with the cursor state it left.
-/

namespace PyParsing

/-- Parse results: `Nil`, strings, Python lists, and `Match(result, matched)`
records (class `Match` in the source, wrapping a result together with the
slice of input it consumed). -/
inductive Value where
  | nil
  | str (s : List Char)
  | vlist (xs : List Value)
  | vmatch (result : Value) (matched : List Char)

/-- Concatenation of two concrete (non-`Nil`, non-`Match`) results: strings
concatenate with strings, lists with lists; any other pairing is a
`TypeError`, modelled as `none`. -/
def joinCore : Value → Value → Option Value
  | .str s, .str t => some (.str (s ++ t))
  | .vlist xs, .vlist ys => some (.vlist (xs ++ ys))
  | _, _ => none

/-- Reflected (`__radd__`) dispatch on the right operand, reached when the
left operand is a concrete string or list: `Nil.__radd__` returns the left
operand, `Match.__radd__` delegates to the wrapped result
(`other + self.result`), and otherwise the concrete values combine. -/
def joinR (a : Value) : Value → Option Value
  | .nil => some a
  | .vmatch r _ => joinR a r
  | b => joinCore a b

/-- Python `a + b` over `Value`, following the source's operator methods and
Python's `__add__`-then-`__radd__` resolution: `Nil.__add__` returns the
right operand unchanged, `Match.__add__` delegates to the wrapped result
(`self.result + other`), and any other left operand falls through to the
reflected dispatch `joinR`. -/
def join : Value → Value → Option Value
  | .nil, b => some b
  | .vmatch r _, b => join r b
  | a, b => joinR a b

/-- The two failure kinds: `EndOfInputError` and a generic `ParserError`.
Error message strings are elided; the source distinguishes failures only by
class. -/
inductive PError where
  | endOfInput
  | generic
  deriving DecidableEq

/-- The cursor class `Input`: remaining input (`value`) and committed input
(`_consumed`). -/
structure Input where
  value : List Char
  consumed : List Char
  deriving DecidableEq

/-- `Input.consume`: if enough input remains, move the first `chars` elements
from `value` to `_consumed` and return them; otherwise raise
`EndOfInputError` (the cursor is only mutated on the success path). -/
def Input.consume (inp : Input) (chars : Nat) : Except PError (List Char × Input) :=
  if chars ≤ inp.value.length then
    let c := inp.value.take chars
    .ok (c, ⟨inp.value.drop chars, inp.consumed ++ c⟩)
  else
    .error .endOfInput

/-- The single-quote character, used below to model Python `repr`
comparisons. -/
def sq : Char := Char.ofNat 39

/-- The `mismatch` helper applied to `received=repr(input)`: the repr of a
string is never empty, and equals `repr(: ''` exactly when the remaining
input is empty, so the result is `EndOfInputError` iff the remaining input
is empty and a generic `ParserError` otherwise. -/
def mismatchRepr (remaining : List Char) : PError :=
  if remaining = [] then .endOfInput else .generic

/-- The `mismatch` helper applied to `received=input` (the cursor object
itself, as in `many.parse`): `not received` tests emptiness via `__len__`,
and `received == repr(: ''` compares the remaining input to the two-character
string of two single quotes via `Input.__eq__`. -/
def mismatchInput (remaining : List Char) : PError :=
  if remaining = [] ∨ remaining = [sq, sq] then .endOfInput else .generic

/-- Outcome of running a parser against a cursor: a returned `Value`, a
raised `ParserError`/`EndOfInputError`, a raised non-parser exception
(`TypeError` from an incompatible join), or fuel exhaustion.  Failures carry
the cursor state at the moment the exception escapes the combinator. -/
inductive Res where
  | ok (v : Value) (s : Input)
  | err (e : PError) (s : Input)
  | fatal (s : Input)
  | timeout

/-- `True` exactly on raised parse failures. -/
def Res.isErr : Res → Bool
  | .err _ _ => true
  | _ => false

/-- The combinator grammar: one constructor per parser class of the source
that the claims mention (`regex` and the `Pipe`/decorator machinery are not
needed by any claim). -/
inductive P where
  | constant (v : List Char)
  | repeatP (p : P) (times : Nat)
  | many (p : P) (atLeast : Nat)
  | not_ (p : P)
  | one_of (ps : List P)
  | optional (p : P)
  | peek (p : P)
  | sep_by (p : P) (sep : P)
  | sequence (ps : List P)
  | until_ (p : P)
  | ignored (p : P)

/-- Loop of `repeat.parse`: `for i in range(0, times): parsed += parser(input)`.
No checkpointing: failures propagate with whatever the child left. -/
def repeatGo (f : Input → Res) : Nat → Value → Input → Res
  | 0, parsed, inp => .ok parsed inp
  | t+1, parsed, inp =>
    match f inp with
    | .ok v s =>
      match join parsed v with
      | some p2 => repeatGo f t p2 s
      | none => .fatal s
    | r => r

/-- Exit of the `many.parse` while loop. -/
inductive ManyExit where
  | done (parsed : Value) (count : Nat) (s : Input)
  | abort (r : Res)

/-- Loop of `many.parse`: `while input: try: parsed += parser(input); count += 1
except ParserError: break`.  A caught failure breaks with the state the child
left; the incompatible-join `TypeError` is not caught and aborts. -/
def manyGo (f : Input → Res) : Nat → Value → Nat → Input → ManyExit
  | n, parsed, count, inp =>
    if inp.value = [] then .done parsed count inp
    else
      match n with
      | 0 => .abort .timeout
      | m+1 =>
        match f inp with
        | .ok v s =>
          match join parsed v with
          | some p2 => manyGo f m p2 (count+1) s
          | none => .abort (.fatal s)
        | .err _ s => .done parsed count s
        | .fatal s => .abort (.fatal s)
        | .timeout => .abort .timeout

/-- Loop of `one_of.parse`: checkpoint before each branch, commit and return
the first success, roll back (restoring `inp`) on each caught failure; when
every branch has failed, raise a fresh generic
`ParserError(: None of the supplied parsers matched`. -/
def oneOfGo (f : P → Input → Res) : List P → Input → Res
  | [], inp => .err .generic inp
  | q :: rest, inp =>
    match f q inp with
    | .ok v s => .ok v s
    | .err _ _ => oneOfGo f rest inp
    | .fatal s => .fatal s
    | .timeout => .timeout

/-- Exit of the `sequence.parse` child loop. -/
inductive SeqExit where
  | done (v : Value) (s : Input)
  | abort (r : Res)

/-- Loop of `sequence.parse`: `for parser in parsers: result += parser(input)`
inside the checkpointed `try`. -/
def seqGo (f : P → Input → Res) : List P → Value → Input → SeqExit
  | [], acc, inp => .done acc inp
  | q :: rest, acc, inp =>
    match f q inp with
    | .ok v s =>
      match join acc v with
      | some a2 => seqGo f rest a2 s
      | none => .abort (.fatal s)
    | .err e s => .abort (.err e s)
    | .fatal s => .abort (.fatal s)
    | .timeout => .abort .timeout

/-- `Input.match`: run the parser and wrap its result in a `Match` whose
matched slice is the difference between the remaining input before and after
the call; exceptions propagate unchanged. -/
def inputMatch (f : Input → Res) (inp : Input) : Res :=
  match f inp with
  | .ok v s => .ok (.vmatch v (inp.value.take (inp.value.length - s.value.length))) s
  | r => r

/-- Exit of the `sep_by.parse` while loop. -/
inductive SepExit where
  | done (parsed : List Value) (s : Input)
  | abort (r : Res)

/-- Loop of `sep_by.parse`: checkpoint, `if parsed: input.match(separator)`,
then `parsed.append(input.match(parser))`; commit on success, roll back to
`inp` and break on a caught failure.  The skipped separator match (when
`parsed` is still empty) is encoded as an immediate `.ok .nil inp`. -/
def sepByGo (fp fsep : Input → Res) : Nat → List Value → Input → SepExit
  | n, parsed, inp =>
    if inp.value = [] then .done parsed inp
    else
      match n with
      | 0 => .abort .timeout
      | m+1 =>
        match (match parsed with | [] => Res.ok .nil inp | _ => inputMatch fsep inp) with
        | .ok _ s1 =>
          match inputMatch fp s1 with
          | .ok mv s2 => sepByGo fp fsep m (parsed ++ [mv]) s2
          | .err _ _ => .done parsed inp
          | .fatal s => .abort (.fatal s)
          | .timeout => .abort .timeout
        | .err _ _ => .done parsed inp
        | .fatal s => .abort (.fatal s)
        | .timeout => .abort .timeout

/-- Loop of `until.parse`: while input remains, checkpoint and try the child;
on success roll back and return what was scanned; a child `EndOfInputError`
is rolled back and re-raised; a generic child failure is rolled back and one
element is consumed (`parsed += input.consume(1)`).  When the loop exhausts
the input, the `while`/`else` clause returns what was scanned. -/
def untilGo (f : Input → Res) : Nat → Value → Input → Res
  | n, parsed, inp =>
    if inp.value = [] then .ok parsed inp
    else
      match n with
      | 0 => .timeout
      | m+1 =>
        match f inp with
        | .ok _ _ => .ok parsed inp
        | .err .endOfInput _ => .err .endOfInput inp
        | .err .generic _ =>
          match inp.consume 1 with
          | .ok (c, s) =>
            match join parsed (.str c) with
            | some p2 => untilGo f m p2 s
            | none => .fatal s
          | .error e => .err e inp
        | .fatal s => .fatal s
        | .timeout => .timeout

/-- The interpreter: one clause per `parse` method of the source.  Fuel is
decremented once per nested parser invocation and bounds the iteration count
of each `while` loop. -/
def parse : Nat → P → Input → Res
  | 0, _, _ => .timeout
  | n+1, p, inp =>
    match p with
    | .constant v =>
      -- if input[0:len(self.value)] == self.value: return input.consume(len(self.value))
      if inp.value.take v.length = v then
        match inp.consume v.length with
        | .ok (c, s) => .ok (.str c) s
        | .error e => .err e inp
      else
        .err (mismatchRepr inp.value) inp
    | .repeatP q times => repeatGo (fun s => parse n q s) times .nil inp
    | .many q atLeast =>
      match manyGo (fun s => parse n q s) n .nil 0 inp with
      | .done parsed count s =>
        if atLeast ≤ count then .ok parsed s
        else .err (mismatchInput inp.value) inp
      | .abort r => r
    | .not_ q =>
      match parse n q inp with
      | .ok _ _ => .err .generic inp
      | .err _ _ =>
        match inp.consume 1 with
        | .ok (c, s) => .ok (.str c) s
        | .error e => .err e inp
      | .fatal s => .fatal s
      | .timeout => .timeout
    | .one_of ps => oneOfGo (fun q s => parse n q s) ps inp
    | .optional q =>
      match parse n q inp with
      | .err _ s => .ok .nil s
      | r => r
    | .peek q =>
      match parse n q inp with
      | .ok _ _ => .ok .nil inp
      | .err e _ => .err e inp
      | .fatal s => .fatal s
      | .timeout => .timeout
    | .sep_by q sep =>
      match sepByGo (fun s => parse n q s) (fun s => parse n sep s) n [] inp with
      | .done parsed s => .ok (.vlist parsed) s
      | .abort r => r
    | .sequence ps =>
      match seqGo (fun q s => parse n q s) ps .nil inp with
      | .done v s => .ok v s
      | .abort (.err e _) => .err e inp
      | .abort r => r
    | .until_ q => untilGo (fun s => parse n q s) n .nil inp
    | .ignored q =>
      match parse n q inp with
      | .ok _ s => .ok .nil s
      | r => r

/-- `repeat.__mul__` / `Parser.__mul__`: multiplying a `repeat` node scales
its exponent (`repeat(self.parser, self.times * other)`); any other parser is
wrapped in a fresh `repeat`. -/
def repeatMul : P → Nat → P
  | .repeatP q t, m => .repeatP q (t * m)
  | p, m => .repeatP p m

/-- `True` exactly on `Match` records. -/
def Value.isMatch : Value → Bool
  | .vmatch _ _ => true
  | _ => false

/-- The combinators whose `parse` methods catch every `ParserError` they can
see after checkpointing, or never raise one at all (everything except
`repeat`, `until` and `ignored`, which propagate child failures without
restoring the cursor). -/
def restoring : P → Bool
  | .many _ _ => true
  | .not_ _ => true
  | .one_of _ => true
  | .optional _ => true
  | .peek _ => true
  | .sep_by _ _ => true
  | .sequence _ => true
  | _ => false

/-!
Dynamic-typing model for `Input.consume` on arbitrary sequence inputs.
`Input.__init__` accepts any `collections.abc.Sequence` but initializes
`self._consumed = ''` (the empty string), and `consume` runs
`self._consumed += consumed`; Python string concatenation with a non-string
raises `TypeError`.
-/

/-- A Python sequence value: a string or a list of tokens (tokens modelled
as naturals). -/
inductive PyVal where
  | pstr (s : List Char)
  | plist (l : List Nat)
  deriving DecidableEq

/-- Python `len`. -/
def PyVal.len : PyVal → Nat
  | .pstr s => s.length
  | .plist l => l.length

/-- Python slice `v[0:n]`. -/
def PyVal.take : PyVal → Nat → PyVal
  | .pstr s, n => .pstr (s.take n)
  | .plist l, n => .plist (l.take n)

/-- Python slice `v[n:]`. -/
def PyVal.drop : PyVal → Nat → PyVal
  | .pstr s, n => .pstr (s.drop n)
  | .plist l, n => .plist (l.drop n)

/-- Python `a + b` on sequences: concatenation when kinds agree, `TypeError`
(`none`) otherwise. -/
def pyConcat : PyVal → PyVal → Option PyVal
  | .pstr s, .pstr t => some (.pstr (s ++ t))
  | .plist a, .plist b => some (.plist (a ++ b))
  | _, _ => none

/-- The cursor with dynamically-typed fields, as Python actually stores
them. -/
structure DynInput where
  value : PyVal
  consumed : PyVal
  deriving DecidableEq

/-- `Input.__init__`: stores the sequence and sets `self._consumed = ''` —
the empty STRING, whatever kind `value` has. -/
def mkInput (v : PyVal) : DynInput := ⟨v, .pstr []⟩

/-- Outcome of `Input.consume` under the dynamic model. -/
inductive DynRes where
  | ok (c : PyVal) (s : DynInput)
  | endOfInput
  | typeError
  deriving DecidableEq

/-- `Input.consume` with dynamic typing: slice off the first `chars`
elements, run `self._consumed += consumed` (a `TypeError` when `_consumed`
is a string and the slice is a list), then shrink `value`. -/
def dynConsume (inp : DynInput) (chars : Nat) : DynRes :=
  if chars ≤ inp.value.len then
    let c := inp.value.take chars
    match pyConcat inp.consumed c with
    | some c2 => .ok c ⟨inp.value.drop chars, c2⟩
    | none => .typeError
  else
    .endOfInput

/-!
Model of `Nil.__eq__` for the equality claims.  `PyObj` is a universe of
Python values that `Nil` may be compared against.
-/

/-- Python objects appearing in `Nil` comparisons: `Nil` itself, the five
collection shapes `Nil.__eq__` special-cases, and representatives of every
other kind (an int, a tuple, a parser). -/
inductive PyObj where
  | nilV
  | strV (s : List Char)
  | listV (l : List Nat)
  | setV (l : List Nat)
  | dictV (l : List (Nat × Nat))
  | intV (n : Int)
  | tupleV (l : List Nat)
  | parserV (p : P)

/-- `True` on the objects `Nil.__eq__` has no branch for. -/
def PyObj.isNonCollection : PyObj → Bool
  | .intV _ => true
  | .tupleV _ => true
  | .parserV _ => true
  | _ => false

/-- `Nil.__eq__(other)`: `True` for another `Nil`, emptiness tests for
dicts, lists, sets and strings, and `TypeError` (`none`) for everything
else. -/
def nilEq : PyObj → Option Bool
  | .nilV => some true
  | .dictV d => some d.isEmpty
  | .listV l => some l.isEmpty
  | .setV l => some l.isEmpty
  | .strV s => some s.isEmpty
  | _ => none

/-! ## Helper lemmas -/

/-- When a branch of `one_of` fails, alternation continues from the
rolled-back state, so a failure escaping `oneOfGo` is always the fresh
generic error at the restored pre-call state. -/
theorem oneOfGo_err_state (f : P → Input → Res) :
    ∀ (ps : List P) (inp : Input) (e : PError) (s : Input),
      oneOfGo f ps inp = .err e s → e = .generic ∧ s = inp := by
  intro ps
  induction ps with
  | nil =>
    intro inp e s h
    simp only [oneOfGo] at h
    cases h
    exact ⟨rfl, rfl⟩
  | cons q rest ih =>
    intro inp e s h
    simp only [oneOfGo] at h
    cases hq : f q inp <;> rw [hq] at h
    · exact Res.noConfusion h
    · exact ih inp e s h
    · exact Res.noConfusion h
    · exact Res.noConfusion h

/-- When every branch of `one_of` fails, the combinator raises the fresh
generic error at the restored pre-call state. -/
theorem oneOfGo_all_fail (f : P → Input → Res) :
    ∀ (ps : List P) (inp : Input),
      (∀ q ∈ ps, ∃ e s, f q inp = .err e s) →
      oneOfGo f ps inp = .err .generic inp := by
  intro ps
  induction ps with
  | nil => intro inp _; rfl
  | cons q rest ih =>
    intro inp hall
    obtain ⟨e, s, hq⟩ := hall q (List.mem_cons_self q rest)
    show (match f q inp with
      | .ok v s => Res.ok v s
      | .err _ _ => oneOfGo f rest inp
      | .fatal s => Res.fatal s
      | .timeout => Res.timeout) = .err .generic inp
    rw [hq]
    exact ih inp fun r hr => hall r (List.mem_cons_of_mem _ hr)

/-- The `many` loop only aborts on an uncaught `TypeError` or on fuel
exhaustion, never on a parse failure. -/
theorem manyGo_abort_not_err (f : Input → Res) :
    ∀ (n : Nat) (a : Value) (c : Nat) (inp : Input) (r : Res),
      manyGo f n a c inp = .abort r → r.isErr = false := by
  intro n
  induction n with
  | zero =>
    intro a c inp r h
    simp only [manyGo] at h
    split at h
    · exact ManyExit.noConfusion h
    · cases h; rfl
  | succ m ih =>
    intro a c inp r h
    simp only [manyGo] at h
    split at h
    · exact ManyExit.noConfusion h
    · split at h
      · split at h
        · exact ih _ _ _ _ h
        · cases h; rfl
      · exact ManyExit.noConfusion h
      · cases h; rfl
      · cases h; rfl

/-- The `sep_by` loop only aborts on an uncaught `TypeError` or on fuel
exhaustion, never on a parse failure. -/
theorem sepByGo_abort_not_err (fp fsep : Input → Res) :
    ∀ (n : Nat) (acc : List Value) (inp : Input) (r : Res),
      sepByGo fp fsep n acc inp = .abort r → r.isErr = false := by
  intro n
  induction n with
  | zero =>
    intro acc inp r h
    simp only [sepByGo] at h
    split at h
    · exact SepExit.noConfusion h
    · cases h; rfl
  | succ m ih =>
    intro acc inp r h
    simp only [sepByGo] at h
    split at h
    · exact SepExit.noConfusion h
    · split at h
      · split at h
        · exact ih _ _ _ h
        · exact SepExit.noConfusion h
        · cases h; rfl
        · cases h; rfl
      · exact SepExit.noConfusion h
      · cases h; rfl
      · cases h; rfl

/-- A parser that fails with a generic error on every non-empty cursor state
makes the `until` loop consume the whole input and return it joined onto the
accumulator (the `while`/`else` exit of `until.parse`). -/
theorem untilGo_scan (f : Input → Res)
    (hf : ∀ s : Input, s.value ≠ [] → ∃ s', f s = .err .generic s') :
    ∀ (n : Nat) (a : List Char) (inp : Input), inp.value.length < n →
      untilGo f n (.str a) inp = .ok (.str (a ++ inp.value)) ⟨[], inp.consumed ++ inp.value⟩ := by
  intro n
  induction n with
  | zero => intro a inp h; omega
  | succ m ih =>
    intro a inp h
    obtain ⟨vl, cs⟩ := inp
    cases vl with
    | nil => simp [untilGo]
    | cons c rest =>
      obtain ⟨s', hfs⟩ := hf ⟨c :: rest, cs⟩ (by simp)
      have hcons : (⟨c :: rest, cs⟩ : Input).consume 1
          = Except.ok ([c], ⟨rest, cs ++ [c]⟩) := by
        simp [Input.consume]
      have hstep : untilGo f (m+1) (.str a) ⟨c :: rest, cs⟩
          = untilGo f m (.str (a ++ [c])) ⟨rest, cs ++ [c]⟩ := by
        conv_lhs => rw [untilGo]
        rw [if_neg (by simp), hfs, hcons]
        rfl
      have hlen : (⟨rest, cs ++ [c]⟩ : Input).value.length < m := by
        simp at h ⊢; omega
      rw [hstep, ih (a ++ [c]) ⟨rest, cs ++ [c]⟩ hlen]
      simp

/-- `not_(constant(: ))` fails with a generic error on every cursor state:
the empty literal always matches, so `not_` rolls back and raises. -/
theorem not_empty_constant_generic (s : Input) :
    parse 2 (.not_ (.constant [])) s = .err .generic s := by
  simp [parse, Input.consume]

/-- First iteration of the `until` loop from the `Nil` accumulator: the child
fails generically, is rolled back, and one element is consumed
(`parsed += input.consume(1)` with `Nil + str` yielding the string). -/
theorem untilGo_start (f : Input → Res) (c : Char) (rest cs : List Char) (m : Nat)
    (hfs : ∃ s', f ⟨c :: rest, cs⟩ = .err .generic s') :
    untilGo f (m+1) .nil ⟨c :: rest, cs⟩ = untilGo f m (.str [c]) ⟨rest, cs ++ [c]⟩ := by
  obtain ⟨s', hfs⟩ := hfs
  conv_lhs => rw [untilGo]
  rw [if_neg (by simp), hfs, show (⟨c :: rest, cs⟩ : Input).consume 1
      = Except.ok ([c], ⟨rest, cs ++ [c]⟩) from by simp [Input.consume]]
  rfl

/-! ## Claims -/

/-- Claim C1, counterexample: `until(constant(: ab))` applied to the
one-character input `x` exhausts the cursor without the target ever
matching, yet returns the scanned input `x` as a success instead of raising
`EndOfInputError`. -/
theorem c1_counterexample :
    parse 4 (.until_ (.constant ['a','b'])) ⟨['x'],[]⟩ = .ok (.str ['x']) ⟨[],['x']⟩ ∧
    (parse 4 (.until_ (.constant ['a','b'])) ⟨['x'],[]⟩).isErr = false :=
  ⟨rfl, rfl⟩

/-- Claim C1, amended: when the cursor is exhausted by `until`'s own
one-element scanning — the child failing with a generic mismatch at every
position — `until(p).parse` returns the elements consumed so far (the
`while`/`else` exit) instead of raising; an `EndOfInputError` is propagated
only when the child itself raises one mid-scan. -/
theorem c1_until_exhaustion (p : P) (inp : Input) (n : Nat)
    (hne : inp.value ≠ []) (hfuel : inp.value.length < n)
    (hp : ∀ s : Input, s.value ≠ [] → ∃ s', parse n p s = .err .generic s') :
    parse (n+1) (.until_ p) inp = .ok (.str inp.value) ⟨[], inp.consumed ++ inp.value⟩ := by
  obtain ⟨vl, cs⟩ := inp
  cases vl with
  | nil => exact absurd rfl hne
  | cons c rest =>
    cases n with
    | zero => simp at hfuel
    | succ m =>
      show untilGo (fun s => parse (m+1) p s) (m+1) .nil ⟨c :: rest, cs⟩ = _
      rw [untilGo_start _ c rest cs m (hp ⟨c :: rest, cs⟩ (by simp))]
      have hlen : (⟨rest, cs ++ [c]⟩ : Input).value.length < m := by
        simp at hfuel ⊢; omega
      rw [untilGo_scan _ hp m [c] ⟨rest, cs ++ [c]⟩ hlen]
      simp

/-- Claim C1, witness for the amended theorem: `not_(constant(: ))` fails
generically everywhere, so `until` over it scans the whole input and returns
it. -/
theorem c1_until_exhaustion_witness :
    parse 3 (.until_ (.not_ (.constant []))) ⟨['x'],[]⟩ = .ok (.str ['x']) ⟨[],['x']⟩ :=
  c1_until_exhaustion (.not_ (.constant [])) ⟨['x'],[]⟩ 2 (by simp) (by simp)
    (fun s hs => ⟨s, not_empty_constant_generic s⟩)

/-- Claim C2, counterexample: `repeat(constant(: a), 2)` on input `ab`
raises after its first repetition already consumed `a`; the cursor after the
raise is `(b, a)`, not the pre-call `(ab, )` — `repeat` has no checkpoint. -/
theorem c2_counterexample :
    parse 3 (.repeatP (.constant ['a']) 2) ⟨['a','b'],[]⟩ = .err .generic ⟨['b'],['a']⟩ ∧
    Input.mk ['b'] ['a'] ≠ Input.mk ['a','b'] [] :=
  ⟨rfl, by decide⟩

/-- Claim C2, amended: the no-leak-on-failure property holds for the
combinators that checkpoint and restore before re-raising or that never
raise a parse failure at all — `many`, `not_`, `one_of`, `optional`, `peek`,
`sep_by` and `sequence`; it fails for `repeat`, `until` and `ignored`, which
propagate child failures without restoring the cursor. -/
theorem c2_restoring_no_leak (p : P) (hp : restoring p = true) (n : Nat) (inp : Input)
    (e : PError) (s : Input) (h : parse n p inp = .err e s) : s = inp := by
  cases n with
  | zero => exact Res.noConfusion h
  | succ m =>
    cases p with
    | constant v => exact absurd hp (by simp [restoring])
    | repeatP q t => exact absurd hp (by simp [restoring])
    | until_ q => exact absurd hp (by simp [restoring])
    | ignored q => exact absurd hp (by simp [restoring])
    | many q k =>
      cases hm : manyGo (fun s => parse m q s) m .nil 0 inp with
      | done parsed count s' =>
        replace h : (if k ≤ count then Res.ok parsed s'
            else Res.err (mismatchInput inp.value) inp) = .err e s := by
          rw [show parse (m+1) (.many q k) inp
              = (match manyGo (fun s => parse m q s) m .nil 0 inp with
                 | .done parsed count s => if k ≤ count then Res.ok parsed s
                     else Res.err (mismatchInput inp.value) inp
                 | .abort r => r) from rfl, hm] at h
          exact h
        split at h
        · exact Res.noConfusion h
        · injection h with h1 h2; exact h2.symm
      | abort r =>
        replace h : r = .err e s := by
          rw [show parse (m+1) (.many q k) inp
              = (match manyGo (fun s => parse m q s) m .nil 0 inp with
                 | .done parsed count s => if k ≤ count then Res.ok parsed s
                     else Res.err (mismatchInput inp.value) inp
                 | .abort r => r) from rfl, hm] at h
          exact h
        have hne := manyGo_abort_not_err _ _ _ _ _ _ hm
        rw [h] at hne
        exact absurd hne (by simp [Res.isErr])
    | not_ q =>
      cases hq : parse m q inp with
      | ok v s' =>
        replace h : Res.err .generic inp = .err e s := by
          rw [show parse (m+1) (.not_ q) inp
              = (match parse m q inp with
                 | .ok _ _ => Res.err .generic inp
                 | .err _ _ =>
                   match inp.consume 1 with
                   | .ok (c, s) => Res.ok (.str c) s
                   | .error e => Res.err e inp
                 | .fatal s => Res.fatal s
                 | .timeout => Res.timeout) from rfl, hq] at h
          exact h
        injection h with h1 h2; exact h2.symm
      | err e' s' =>
        replace h : (match inp.consume 1 with
            | .ok (c, s) => Res.ok (.str c) s
            | .error e => Res.err e inp) = .err e s := by
          rw [show parse (m+1) (.not_ q) inp
              = (match parse m q inp with
                 | .ok _ _ => Res.err .generic inp
                 | .err _ _ =>
                   match inp.consume 1 with
                   | .ok (c, s) => Res.ok (.str c) s
                   | .error e => Res.err e inp
                 | .fatal s => Res.fatal s
                 | .timeout => Res.timeout) from rfl, hq] at h
          exact h
        cases hc : inp.consume 1 with
        | ok p2 => rw [hc] at h; exact Res.noConfusion h
        | error e2 => rw [hc] at h; injection h with h1 h2; exact h2.symm
      | fatal s' =>
        replace h : Res.fatal s' = .err e s := by
          rw [show parse (m+1) (.not_ q) inp
              = (match parse m q inp with
                 | .ok _ _ => Res.err .generic inp
                 | .err _ _ =>
                   match inp.consume 1 with
                   | .ok (c, s) => Res.ok (.str c) s
                   | .error e => Res.err e inp
                 | .fatal s => Res.fatal s
                 | .timeout => Res.timeout) from rfl, hq] at h
          exact h
        exact Res.noConfusion h
      | timeout =>
        replace h : Res.timeout = .err e s := by
          rw [show parse (m+1) (.not_ q) inp
              = (match parse m q inp with
                 | .ok _ _ => Res.err .generic inp
                 | .err _ _ =>
                   match inp.consume 1 with
                   | .ok (c, s) => Res.ok (.str c) s
                   | .error e => Res.err e inp
                 | .fatal s => Res.fatal s
                 | .timeout => Res.timeout) from rfl, hq] at h
          exact h
        exact Res.noConfusion h
    | one_of ps => exact (oneOfGo_err_state _ ps inp e s h).2
    | optional q =>
      cases hq : parse m q inp with
      | ok v s' =>
        replace h : Res.ok v s' = .err e s := by
          rw [show parse (m+1) (.optional q) inp
              = (match parse m q inp with
                 | .err _ s => Res.ok .nil s
                 | r => r) from rfl, hq] at h
          exact h
        exact Res.noConfusion h
      | err e' s' =>
        replace h : Res.ok .nil s' = .err e s := by
          rw [show parse (m+1) (.optional q) inp
              = (match parse m q inp with
                 | .err _ s => Res.ok .nil s
                 | r => r) from rfl, hq] at h
          exact h
        exact Res.noConfusion h
      | fatal s' =>
        replace h : Res.fatal s' = .err e s := by
          rw [show parse (m+1) (.optional q) inp
              = (match parse m q inp with
                 | .err _ s => Res.ok .nil s
                 | r => r) from rfl, hq] at h
          exact h
        exact Res.noConfusion h
      | timeout =>
        replace h : Res.timeout = .err e s := by
          rw [show parse (m+1) (.optional q) inp
              = (match parse m q inp with
                 | .err _ s => Res.ok .nil s
                 | r => r) from rfl, hq] at h
          exact h
        exact Res.noConfusion h
    | peek q =>
      cases hq : parse m q inp with
      | ok v s' =>
        replace h : Res.ok .nil inp = .err e s := by
          rw [show parse (m+1) (.peek q) inp
              = (match parse m q inp with
                 | .ok _ _ => Res.ok .nil inp
                 | .err e _ => Res.err e inp
                 | .fatal s => Res.fatal s
                 | .timeout => Res.timeout) from rfl, hq] at h
          exact h
        exact Res.noConfusion h
      | err e' s' =>
        replace h : Res.err e' inp = .err e s := by
          rw [show parse (m+1) (.peek q) inp
              = (match parse m q inp with
                 | .ok _ _ => Res.ok .nil inp
                 | .err e _ => Res.err e inp
                 | .fatal s => Res.fatal s
                 | .timeout => Res.timeout) from rfl, hq] at h
          exact h
        injection h with h1 h2; exact h2.symm
      | fatal s' =>
        replace h : Res.fatal s' = .err e s := by
          rw [show parse (m+1) (.peek q) inp
              = (match parse m q inp with
                 | .ok _ _ => Res.ok .nil inp
                 | .err e _ => Res.err e inp
                 | .fatal s => Res.fatal s
                 | .timeout => Res.timeout) from rfl, hq] at h
          exact h
        exact Res.noConfusion h
      | timeout =>
        replace h : Res.timeout = .err e s := by
          rw [show parse (m+1) (.peek q) inp
              = (match parse m q inp with
                 | .ok _ _ => Res.ok .nil inp
                 | .err e _ => Res.err e inp
                 | .fatal s => Res.fatal s
                 | .timeout => Res.timeout) from rfl, hq] at h
          exact h
        exact Res.noConfusion h
    | sep_by q sep =>
      cases hs : sepByGo (fun s => parse m q s) (fun s => parse m sep s) m [] inp with
      | done parsed s' =>
        replace h : Res.ok (.vlist parsed) s' = .err e s := by
          rw [show parse (m+1) (.sep_by q sep) inp
              = (match sepByGo (fun s => parse m q s) (fun s => parse m sep s) m [] inp with
                 | .done parsed s => Res.ok (.vlist parsed) s
                 | .abort r => r) from rfl, hs] at h
          exact h
        exact Res.noConfusion h
      | abort r =>
        replace h : r = .err e s := by
          rw [show parse (m+1) (.sep_by q sep) inp
              = (match sepByGo (fun s => parse m q s) (fun s => parse m sep s) m [] inp with
                 | .done parsed s => Res.ok (.vlist parsed) s
                 | .abort r => r) from rfl, hs] at h
          exact h
        have hne := sepByGo_abort_not_err _ _ _ _ _ _ hs
        rw [h] at hne
        exact absurd hne (by simp [Res.isErr])
    | sequence ps =>
      cases hs : seqGo (fun q s => parse m q s) ps .nil inp with
      | done v s' =>
        replace h : Res.ok v s' = .err e s := by
          rw [show parse (m+1) (.sequence ps) inp
              = (match seqGo (fun q s => parse m q s) ps .nil inp with
                 | .done v s => Res.ok v s
                 | .abort (.err e _) => Res.err e inp
                 | .abort r => r) from rfl, hs] at h
          exact h
        exact Res.noConfusion h
      | abort r =>
        replace h : (match SeqExit.abort r with
            | .done v s => Res.ok v s
            | .abort (.err e _) => Res.err e inp
            | .abort r => r) = .err e s := by
          rw [show parse (m+1) (.sequence ps) inp
              = (match seqGo (fun q s => parse m q s) ps .nil inp with
                 | .done v s => Res.ok v s
                 | .abort (.err e _) => Res.err e inp
                 | .abort r => r) from rfl, hs] at h
          exact h
        cases r with
        | ok v s' => exact Res.noConfusion h
        | err e' s' => injection h with h1 h2; exact h2.symm
        | fatal s' => exact Res.noConfusion h
        | timeout => exact Res.noConfusion h

/-- Claim C2, witness for the amended theorem: a failing `sequence` rolls
its partial consumption back to the pre-call state. -/
theorem c2_restoring_no_leak_witness : Input.mk ['a','c'] [] = Input.mk ['a','c'] [] :=
  c2_restoring_no_leak (.sequence [.constant ['a'], .constant ['b']]) rfl 3
    ⟨['a','c'],[]⟩ .generic ⟨['a','c'],[]⟩ rfl

/-- Claim C3, counterexample: `constant(: ab)` on remaining input `a`
(shorter than the literal) raises the generic `ParserError`, not the
end-of-input variant, because `mismatch` only picks `EndOfInputError` when
the remaining input's repr is empty-string repr. -/
theorem c3_counterexample :
    parse 1 (.constant ['a','b']) ⟨['a'],[]⟩ = .err .generic ⟨['a'],[]⟩ ∧
    List.length ['a'] < List.length ['a','b'] ∧ PError.generic ≠ PError.endOfInput :=
  ⟨rfl, by decide, by decide⟩

/-- Claim C3, amended: `constant(v).parse` succeeds iff the next `len(v)`
elements of the remaining input equal `v`, consuming and returning exactly
that slice; on failure it raises the end-of-input variant iff the remaining
input is empty (not merely shorter than `v`), and a generic mismatch
otherwise. -/
theorem c3_constant_spec (v : List Char) (inp : Input) (n : Nat) :
    parse (n+1) (.constant v) inp =
      if inp.value.take v.length = v then
        .ok (.str v) ⟨inp.value.drop v.length, inp.consumed ++ v⟩
      else
        .err (if inp.value = [] then .endOfInput else .generic) inp := by
  by_cases h : inp.value.take v.length = v
  · have hlen : v.length ≤ inp.value.length := by
      have hl := congrArg List.length h
      simp [List.length_take] at hl
      omega
    simp [parse, Input.consume, h, hlen]
  · simp [parse, mismatchRepr, h]

/-- Claim C4, counterexample: `one_of([constant(: a)])` on empty input: the
single (last) branch fails with `EndOfInputError`, but `one_of` raises a
fresh generic `ParserError`, discarding the branch failure. -/
theorem c4_counterexample :
    parse 2 (.one_of [.constant ['a']]) ⟨[],[]⟩ = .err .generic ⟨[],[]⟩ ∧
    parse 1 (.constant ['a']) ⟨[],[]⟩ = .err .endOfInput ⟨[],[]⟩ ∧
    PError.generic ≠ PError.endOfInput :=
  ⟨rfl, rfl, by decide⟩

/-- Claim C4, amended: when every child fails, `one_of` discards all branch
failures (the last one included) and raises its own fresh generic
`ParserError(: None of the supplied parsers matched` at the restored
pre-call cursor state. -/
theorem c4_one_of_fresh_error (n : Nat) (ps : List P) (inp : Input)
    (h : ∀ q ∈ ps, ∃ e s, parse n q inp = .err e s) :
    parse (n+1) (.one_of ps) inp = .err .generic inp :=
  oneOfGo_all_fail _ ps inp h

/-- Claim C4, witness for the amended theorem. -/
theorem c4_one_of_fresh_error_witness :
    parse 2 (.one_of [.constant ['a'], .constant ['b']]) ⟨['c'],[]⟩
      = .err .generic ⟨['c'],[]⟩ :=
  c4_one_of_fresh_error 1 [.constant ['a'], .constant ['b']] ⟨['c'],[]⟩ (by
    intro q hq
    simp only [List.mem_cons, List.not_mem_nil, or_false] at hq
    rcases hq with h | h
    · exact ⟨.generic, ⟨['c'],[]⟩, by rw [h]; rfl⟩
    · exact ⟨.generic, ⟨['c'],[]⟩, by rw [h]; rfl⟩)

/-- Claim C5, counterexample: `optional(repeat(constant(: a), 2))` on `ab`
returns `Nil`, but the failing child had already consumed `a` and `optional`
performs no rollback of its own, so the remaining input is `b`, not the
original `ab`. -/
theorem c5_counterexample :
    parse 4 (.optional (.repeatP (.constant ['a']) 2)) ⟨['a','b'],[]⟩
      = .ok .nil ⟨['b'],['a']⟩ ∧
    (['b'] : List Char) ≠ ['a','b'] :=
  ⟨rfl, by decide⟩

/-- Claim C5, amended: `optional(p).parse` never raises a parse failure, and
whenever `p` fails it returns Absence (`Nil`) — but with the cursor exactly
as `p`'s failing run left it (`optional` does not checkpoint), so the
remaining input is unchanged only when `p` itself restores it. -/
theorem c5_optional_spec (n : Nat) (p : P) (inp : Input) :
    ((parse n (.optional p) inp).isErr = false) ∧
    (∀ e s, parse n p inp = .err e s → parse (n+1) (.optional p) inp = .ok .nil s) := by
  constructor
  · cases n with
    | zero => rfl
    | succ m =>
      show (match parse m p inp with
        | .err _ s => Res.ok .nil s
        | r => r).isErr = false
      cases hq : parse m p inp <;> rfl
  · intro e s h
    show (match parse n p inp with
      | .err _ s => Res.ok .nil s
      | r => r) = .ok .nil s
    rw [h]

/-- Claim C5, witness for the amended theorem: `optional(constant(: z))` on
`abc` returns `Nil` at the untouched cursor (the child fails without
consuming). -/
theorem c5_optional_spec_witness :
    parse 2 (.optional (.constant ['z'])) ⟨['a','b','c'],[]⟩
      = .ok .nil ⟨['a','b','c'],[]⟩ :=
  (c5_optional_spec 1 (.constant ['z']) ⟨['a','b','c'],[]⟩).2 .generic ⟨['a','b','c'],[]⟩ rfl

/-- Claim C6 (code bug): `Input.consume` moves elements for string inputs,
but for a token-list input the very first successful `consume` raises
`TypeError`, because `Input.__init__` sets `_consumed = : ` (the empty
string) and `self._consumed += consumed` concatenates a string with a list.
The over-long request still raises `EndOfInputError` before touching
`_consumed`, as claimed. -/
theorem c6_consume_evaluation :
    dynConsume (mkInput (.plist [1,2,3])) 1 = .typeError ∧
    dynConsume (mkInput (.pstr ['a','b'])) 1
      = .ok (.pstr ['a']) ⟨.pstr ['b'], .pstr ['a']⟩ ∧
    dynConsume (mkInput (.plist [1,2,3])) 4 = .endOfInput ∧
    dynConsume (mkInput (.pstr ['a'])) 2 = .endOfInput := by
  exact ⟨rfl, rfl, rfl, rfl⟩

/-- Claim C7 (confirmed): `Absence` (`Nil`) is a two-sided identity for
`join` on every plain value — `Nil` itself, strings and lists.  (A `Match`
wrapper joined with `Nil` is unwrapped to the value it behaves as.) -/
theorem c7_join_identity (v : Value) (h : v.isMatch = false) :
    join .nil v = some v ∧ join v .nil = some v := by
  cases v with
  | nil => exact ⟨rfl, rfl⟩
  | str s => exact ⟨rfl, rfl⟩
  | vlist xs => exact ⟨rfl, rfl⟩
  | vmatch r m => exact absurd h (by simp [Value.isMatch])

/-- Claim C7, witness. -/
theorem c7_join_identity_witness :
    join .nil (.str ['a']) = some (.str ['a']) ∧
    join (.str ['a']) .nil = some (.str ['a']) :=
  c7_join_identity (.str ['a']) rfl

/-- Claim C8 (confirmed): `repeat(p, n) * m` builds exactly
`repeat(p, n*m)` (`repeat.__mul__` multiplies the exponent), so the two
parse identically on every input — same result, same cursor state, same
failures. -/
theorem c8_repeat_exponent (p : P) (n m : Nat) (hn : 0 < n) (hm : 0 < m)
    (fuel : Nat) (inp : Input) :
    parse fuel (repeatMul (.repeatP p n) m) inp = parse fuel (.repeatP p (n * m)) inp := rfl

/-- Claim C8, witness. -/
theorem c8_repeat_exponent_witness :
    parse 4 (repeatMul (.repeatP (.constant ['a']) 1) 2) ⟨['a','a'],[]⟩
      = parse 4 (.repeatP (.constant ['a']) 2) ⟨['a','a'],[]⟩ :=
  c8_repeat_exponent (.constant ['a']) 1 2 (by decide) (by decide) 4 ⟨['a','a'],[]⟩

/-- Claim C9 (confirmed): `sep_by` never raises — every loop exit is either
the collected list or a propagated non-parse-failure — and on `x,y,x` with
element parser `one_of([x, y])` and separator `,` it returns the ordered
list of the three matched elements, consuming the whole input. -/
theorem c9_sep_by_spec (n : Nat) (p sep : P) (inp : Input) :
    ((parse n (.sep_by p sep) inp).isErr = false) ∧
    parse 9 (.sep_by (.one_of [.constant ['x'], .constant ['y']]) (.constant [',']))
        ⟨['x',',','y',',','x'],[]⟩
      = .ok (.vlist [.vmatch (.str ['x']) ['x'], .vmatch (.str ['y']) ['y'],
          .vmatch (.str ['x']) ['x']]) ⟨[], ['x',',','y',',','x']⟩ := by
  refine ⟨?_, rfl⟩
  cases n with
  | zero => rfl
  | succ m =>
    show (match sepByGo (fun s => parse m p s) (fun s => parse m sep s) m [] inp with
      | .done parsed s => Res.ok (.vlist parsed) s
      | .abort r => r).isErr = false
    cases hs : sepByGo (fun s => parse m p s) (fun s => parse m sep s) m [] inp with
    | done parsed s => rfl
    | abort r => exact sepByGo_abort_not_err _ _ _ _ _ _ hs

/-- Claim C10 (confirmed): `Nil.__eq__` raises `TypeError` for any operand
that is not `Nil`, a dict, a list, a set or a string — e.g. an int, a tuple
or a `Parser` — rather than returning `False`. -/
theorem c10_nil_eq_raises (v : PyObj) (h : v.isNonCollection = true) :
    nilEq v = none := by
  cases v <;> first | rfl | exact absurd h (by simp [PyObj.isNonCollection])

/-- Claim C10, witness. -/
theorem c10_nil_eq_raises_witness : nilEq (.intV 5) = none :=
  c10_nil_eq_raises (.intV 5) rfl

end PyParsing
